import Mathlib

/-!
Verification development for the learning-genie-sync CLI (TypeScript source in
`src/cli.ts`).  The definitions below are a shallow embedding of the incremental
retrieval and selection pipeline: timestamp parsing and extraction, the soft
per-run asset limiter, the page range filter and cursor computation, the
per-enrollment sync action, and the retrying JSON fetch.

Modelling conventions:
* a JavaScript `Date` is its epoch-millisecond value, an `Int`;
* the process-local timezone is a fixed offset `tz` in minutes east of UTC,
  threaded explicitly through every function that the source lets depend on the
  ambient zone (`new Date(string)` without a zone marker, `date-fns` `format`);
* strings are handled through their character lists so that every string
  operation is a structurally recursive Lean function.
-/

/-- Numeric value of a decimal digit character. -/
def digitVal (c : Char) : Nat := c.toNat - 48

/-- Read exactly two decimal digits from the front of a character list. -/
def readDigits2 : List Char → Option (Nat × List Char)
  | a :: b :: rest =>
    if a.isDigit && b.isDigit then some (digitVal a * 10 + digitVal b, rest) else none
  | _ => none

/-- Read exactly three decimal digits from the front of a character list. -/
def readDigits3 : List Char → Option (Nat × List Char)
  | a :: b :: c :: rest =>
    if a.isDigit && b.isDigit && c.isDigit then
      some (digitVal a * 100 + digitVal b * 10 + digitVal c, rest)
    else none
  | _ => none

/-- Read exactly four decimal digits from the front of a character list. -/
def readDigits4 : List Char → Option (Nat × List Char)
  | a :: b :: c :: d :: rest =>
    if a.isDigit && b.isDigit && c.isDigit && d.isDigit then
      some (digitVal a * 1000 + digitVal b * 100 + digitVal c * 10 + digitVal d, rest)
    else none
  | _ => none

/-- Gregorian leap-year test. -/
def isLeapYear (y : Nat) : Bool := (y % 4 == 0 && y % 100 != 0) || y % 400 == 0

/-- Number of days in a month of the proleptic Gregorian calendar. -/
def daysInMonth (y m : Nat) : Nat :=
  if m = 2 then (if isLeapYear y then 29 else 28)
  else if m = 4 ∨ m = 6 ∨ m = 9 ∨ m = 11 then 30
  else 31

/-- Days since 1970-01-01 of a proleptic Gregorian civil date (Howard Hinnant's
`days_from_civil` algorithm, written with floor division). -/
def daysFromCivil (y : Int) (m d : Nat) : Int :=
  let y' : Int := if m ≤ 2 then y - 1 else y
  let era : Int := Int.fdiv y' 400
  let yoe : Int := y' - era * 400
  let mp : Int := (Int.ofNat m + 9) % 12
  let doy : Int := Int.fdiv (153 * mp + 2) 5 + Int.ofNat d - 1
  let doe : Int := yoe * 365 + Int.fdiv yoe 4 - Int.fdiv yoe 100 + doy
  era * 146097 + doe - 719468

/-- Inverse of `daysFromCivil` (Hinnant's `civil_from_days`): the civil
`(year, month, day)` of a day count since 1970-01-01. -/
def civilFromDays (z0 : Int) : Int × Nat × Nat :=
  let z := z0 + 719468
  let era := Int.fdiv z 146097
  let doe := z - era * 146097
  let yoe := Int.fdiv (doe - Int.fdiv doe 1460 + Int.fdiv doe 36524 - Int.fdiv doe 146096) 365
  let y := yoe + era * 400
  let doy := doe - (365 * yoe + Int.fdiv yoe 4 - Int.fdiv yoe 100)
  let mp := Int.fdiv (5 * doy + 2) 153
  let d := (doy - Int.fdiv (153 * mp + 2) 5 + 1).toNat
  let m := (if mp < 10 then mp + 3 else mp - 9).toNat
  (if m ≤ 2 then y + 1 else y, m, d)

/-- Epoch milliseconds of a civil date-time read as UTC. -/
def civilMs (y m d h mi s ms : Nat) : Int :=
  daysFromCivil (Int.ofNat y) m d * 86400000
    + Int.ofNat h * 3600000 + Int.ofNat mi * 60000 + Int.ofNat s * 1000 + Int.ofNat ms

/-- Zone designator of an ECMAScript date-time string: absent, `Z`, or a
numeric offset in minutes east of UTC. -/
inductive ZoneSpec where
  | missing
  | utcZ
  | offset (minutes : Int)
deriving DecidableEq

/-- Signed offset minutes from a sign character and hour/minute fields. -/
def signedOffsetMin (sign : Char) (h mi : Nat) : Int :=
  let v : Int := Int.ofNat (h * 60 + mi)
  if sign = '-' then -v else v

/-- Read the zone designator at the end of a date-time string: nothing, `Z`/`z`,
or `±HH:MM` / `±HHMM`. -/
def readZone : List Char → Option ZoneSpec
  | [] => some .missing
  | ['Z'] => some .utcZ
  | ['z'] => some .utcZ
  | c :: rest =>
    if c = '+' ∨ c = '-' then
      match readDigits2 rest with
      | some (h, ':' :: rest3) =>
        match readDigits2 rest3 with
        | some (mi, []) =>
          if h ≤ 23 ∧ mi ≤ 59 then some (.offset (signedOffsetMin c h mi)) else none
        | _ => none
      | some (h, rest2) =>
        match readDigits2 rest2 with
        | some (mi, []) =>
          if h ≤ 23 ∧ mi ≤ 59 then some (.offset (signedOffsetMin c h mi)) else none
        | _ => none
      | none => none
    else none

/-- Read the `THH:MM[:SS[.sss]]` time part of a date-time string, returning
`(hour, minute, second, millisecond, rest)`. -/
def readTimePart : List Char → Option (Nat × Nat × Nat × Nat × List Char)
  | 'T' :: rest =>
    match readDigits2 rest with
    | some (h, ':' :: r2) =>
      match readDigits2 r2 with
      | some (mi, ':' :: r4) =>
        match readDigits2 r4 with
        | some (s, '.' :: r6) =>
          match readDigits3 r6 with
          | some (ms, r7) =>
            if h ≤ 23 ∧ mi ≤ 59 ∧ s ≤ 59 then some (h, mi, s, ms, r7) else none
          | none => none
        | some (s, r5) =>
          if h ≤ 23 ∧ mi ≤ 59 ∧ s ≤ 59 then some (h, mi, s, 0, r5) else none
        | none => none
      | some (mi, r3) =>
        if h ≤ 23 ∧ mi ≤ 59 then some (h, mi, 0, 0, r3) else none
      | none => none
    | _ => none
  | _ => none

/-- Read the `YYYY[-MM[-DD]]` date part, returning `(year, month, day, rest)`. -/
def readDatePart (cs : List Char) : Option (Nat × Nat × Nat × List Char) :=
  match readDigits4 cs with
  | none => none
  | some (y, rest) =>
    match rest with
    | '-' :: r1 =>
      match readDigits2 r1 with
      | none => none
      | some (m, r2) =>
        if 1 ≤ m ∧ m ≤ 12 then
          match r2 with
          | '-' :: r3 =>
            match readDigits2 r3 with
            | none => none
            | some (d, r4) =>
              if 1 ≤ d ∧ d ≤ daysInMonth y m then some (y, m, d, r4) else none
          | _ => some (y, m, 1, r2)
        else none
    | _ => some (y, 1, 1, rest)

/-- Core parser for the ECMAScript Date Time String Format
`YYYY[-MM[-DD]][THH:MM[:SS[.sss]]][Z|±HH:MM]`: returns the civil instant in
milliseconds, whether a time part is present, and the zone designator.  This
models the grammar `new Date(string)` (and the `date-fns` ISO parser used as a
fallback) accepts for the feed's timestamp strings; extended years and the
`24:00` edge form are outside the model. -/
def parseCore (cs : List Char) : Option (Int × Bool × ZoneSpec) :=
  match readDatePart cs with
  | none => none
  | some (y, m, d, rest) =>
    match rest with
    | [] => some (civilMs y m d 0 0 0 0, false, .missing)
    | _ =>
      match readTimePart rest with
      | none => none
      | some (h, mi, s, ms, rest2) =>
        match readZone rest2 with
        | none => none
        | some z => some (civilMs y m d h mi s ms, true, z)

/-- Model of ECMAScript `new Date(string).getTime()` in a process whose local
zone is the fixed offset `tz` minutes east of UTC: a date-only string is UTC, a
date-time string without zone designator is local time, `Z` is UTC, and a
numeric offset applies as written.  `none` models an invalid date. -/
def jsDateParse (tz : Int) (cs : List Char) : Option Int :=
  match parseCore cs with
  | none => none
  | some (civil, timePresent, z) =>
    match z with
    | .missing => if timePresent then some (civil - tz * 60000) else some civil
    | .utcZ => some civil
    | .offset mi => some (civil - mi * 60000)

/-- Whitespace test matching the characters JavaScript `String.trim` strips
from the feed's timestamp strings. -/
def isWhitespaceChar (c : Char) : Bool := c = ' ' || c = '\t' || c = '\n' || c = '\r'

/-- Model of JavaScript `String.prototype.trim` on a character list. -/
def trimChars (cs : List Char) : List Char :=
  ((cs.dropWhile isWhitespaceChar).reverse.dropWhile isWhitespaceChar).reverse

/-- Model of `str.replace(" ", "T")`: JavaScript `replace` with a string
pattern replaces only the first occurrence. -/
def replaceFirstSpaceT : List Char → List Char
  | [] => []
  | c :: rest => if c = ' ' then 'T' :: rest else c :: replaceFirstSpaceT rest

/-- Two decimal digits at the head of the list. -/
def twoDigitsAhead : List Char → Bool
  | a :: b :: _ => a.isDigit && b.isDigit
  | _ => false

/-- Model of the test `/[zZ]|[+-]\d{2}/.test(normalized)` in `parseTimestamp`:
true when the string contains `z`, `Z`, or a `+`/`-` immediately followed by
two digits anywhere (so in particular the hyphens of `YYYY-MM-DD` match). -/
def hasZoneMarkerChars : List Char → Bool
  | [] => false
  | c :: rest =>
    if c = 'z' ∨ c = 'Z' then true
    else if (c = '+' ∨ c = '-') && twoDigitsAhead rest then true
    else hasZoneMarkerChars rest

/-- Result of `parseTimestamp` in the source: the parsed instant, the trimmed
raw string, and the `treatAsUTC` flag it was parsed under. -/
structure ParsedTimestamp where
  date : Int
  raw : String
  treatAsUTC : Bool
deriving DecidableEq

/-- First successful `new Date(candidate)` over the attempt list. -/
def firstParse (tz : Int) : List (List Char) → Option Int
  | [] => none
  | c :: rest =>
    match jsDateParse tz c with
    | some d => some d
    | none => firstParse tz rest

/-- Model of `parseTimestamp(raw, { treatAsUTC })` (src/cli.ts): trim; empty is
absent; normalize the first space to `T`; with `treatAsUTC`, append `Z` only
when the zone-marker regex does not match; otherwise try the raw then the
normalized string; finally fall back to the ISO parser on the normalized
string. -/
def parseTimestamp (tz : Int) (raw : String) (treatAsUTC : Bool) : Option ParsedTimestamp :=
  let s := trimChars raw.data
  if s.isEmpty then none
  else
    let normalized := replaceFirstSpaceT s
    let attempts :=
      if treatAsUTC then
        if hasZoneMarkerChars normalized then [normalized] else [normalized ++ ['Z']]
      else [s, normalized]
    match firstParse tz attempts with
    | some d => some ⟨d, ⟨s⟩, treatAsUTC⟩
    | none =>
      match jsDateParse tz normalized with
      | some d => some ⟨d, ⟨s⟩, treatAsUTC⟩
      | none => none

/-- One downloadable attachment of a feed record.  The timestamp fields are the
key spellings the source consults; `others` stands for the remaining JSON
fields, untouched by the pipeline.  Real media entries carry no nested `media`
array, so the model stops the extraction recursion at this level. -/
structure MediaAsset where
  create_at : Option String := none
  createAt : Option String := none
  createdAt : Option String := none
  created_at : Option String := none
  from_date : Option String := none
  timestamp : Option String := none
  to_date : Option String := none
  update_at : Option String := none
  updatedAt : Option String := none
  create_at_utc : Option String := none
  created_at_utc : Option String := none
  update_at_utc : Option String := none
  createAtUtc : Option String := none
  createdAtUtc : Option String := none
  createAtUTC : Option String := none
  createdAtUTC : Option String := none
  updatedAtUtc : Option String := none
  updateAtUtc : Option String := none
  others : List (String × String) := []
deriving DecidableEq

/-- One feed record (`NoteItem`): identity candidates, timestamp field
spellings, an optional media array, and the remaining fields as `others`. -/
structure NoteItem where
  create_at : Option String := none
  createAt : Option String := none
  createdAt : Option String := none
  created_at : Option String := none
  from_date : Option String := none
  timestamp : Option String := none
  to_date : Option String := none
  update_at : Option String := none
  updatedAt : Option String := none
  create_at_utc : Option String := none
  created_at_utc : Option String := none
  update_at_utc : Option String := none
  createAtUtc : Option String := none
  createdAtUtc : Option String := none
  createAtUTC : Option String := none
  createdAtUTC : Option String := none
  updatedAtUtc : Option String := none
  updateAtUtc : Option String := none
  id : Option String := none
  note_id : Option String := none
  noteId : Option String := none
  child_media_id : Option String := none
  childMediaId : Option String := none
  media : Option (List MediaAsset) := none
  others : List (String × String) := []
deriving DecidableEq

/-- The `directCandidates` table of `extractTimestamp`, in source order: field
accessor and its `treatAsUTC` flag.  The civil-local spellings come first and
the `*_utc` spellings last, exactly as in the source. -/
def noteDirectCandidates : List ((NoteItem → Option String) × Bool) :=
  [(NoteItem.create_at, false), (NoteItem.createAt, false), (NoteItem.createdAt, false),
   (NoteItem.from_date, false), (NoteItem.timestamp, false), (NoteItem.to_date, false),
   (NoteItem.update_at, false), (NoteItem.updatedAt, false),
   (NoteItem.create_at_utc, true), (NoteItem.update_at_utc, true),
   (NoteItem.createAtUtc, true), (NoteItem.createdAtUtc, true),
   (NoteItem.updatedAtUtc, true), (NoteItem.updateAtUtc, true)]

/-- Same candidate table read off a media entry (the source passes media
objects through the same `extractTimestamp`). -/
def mediaDirectCandidates : List ((MediaAsset → Option String) × Bool) :=
  [(MediaAsset.create_at, false), (MediaAsset.createAt, false), (MediaAsset.createdAt, false),
   (MediaAsset.from_date, false), (MediaAsset.timestamp, false), (MediaAsset.to_date, false),
   (MediaAsset.update_at, false), (MediaAsset.updatedAt, false),
   (MediaAsset.create_at_utc, true), (MediaAsset.update_at_utc, true),
   (MediaAsset.createAtUtc, true), (MediaAsset.createdAtUtc, true),
   (MediaAsset.updatedAtUtc, true), (MediaAsset.updateAtUtc, true)]

/-- Walk a candidate table in order: skip absent fields, return the first field
whose value parses, as in the `for (const [key, treatAsUTC] of directCandidates)`
loop of `extractTimestamp`. -/
def scanCandidates (tz : Int) {α : Type} (item : α) :
    List ((α → Option String) × Bool) → Option ParsedTimestamp
  | [] => none
  | (getf, u) :: rest =>
    match getf item with
    | none => scanCandidates tz item rest
    | some v =>
      match parseTimestamp tz v u with
      | some p => some p
      | none => scanCandidates tz item rest

/-- Direct-field extraction over a media entry (`extractTimestamp` applied to a
media object; media entries have no nested `media` array in the model). -/
def extractTimestampMedia (tz : Int) (m : MediaAsset) : Option ParsedTimestamp :=
  scanCandidates tz m mediaDirectCandidates

/-- First media child with an extractable timestamp. -/
def firstMediaTimestamp (tz : Int) : List MediaAsset → Option ParsedTimestamp
  | [] => none
  | m :: rest =>
    match extractTimestampMedia tz m with
    | some p => some p
    | none => firstMediaTimestamp tz rest

/-- Model of `extractTimestamp(item)` on a `NoteItem`: try the direct candidate
fields in table order, then recurse into the `media` children. -/
def extractTimestamp (tz : Int) (item : NoteItem) : Option ParsedTimestamp :=
  match scanCandidates tz item noteDirectCandidates with
  | some p => some p
  | none =>
    match item.media with
    | some ms => firstMediaTimestamp tz ms
    | none => none

/-- Model of `pickFirstDefined`: first value that is neither absent nor the
empty string. -/
def pickFirstDefined : List (Option String) → Option String
  | [] => none
  | some v :: rest => if v = "" then pickFirstDefined rest else some v
  | none :: rest => pickFirstDefined rest

/-- Raw value and basis hint returned by `resolveMediaTimestamp`. -/
structure MediaTimestampInfo where
  value : String
  hintUtc : Bool
deriving DecidableEq

/-- The `utcKeys` of `resolveMediaTimestamp`, read off the media entry and its
parent note (the source checks `media[key]` then `parent[key]` at each key). -/
def mediaUtcKeyPairs : List ((MediaAsset → Option String) × (NoteItem → Option String)) :=
  [(MediaAsset.createAtUtc, NoteItem.createAtUtc),
   (MediaAsset.createdAtUtc, NoteItem.createdAtUtc),
   (MediaAsset.create_at_utc, NoteItem.create_at_utc),
   (MediaAsset.created_at_utc, NoteItem.created_at_utc),
   (MediaAsset.createAtUTC, NoteItem.createAtUTC),
   (MediaAsset.createdAtUTC, NoteItem.createdAtUTC)]

/-- The `localKeys` of `resolveMediaTimestamp`. -/
def mediaLocalKeyPairs : List ((MediaAsset → Option String) × (NoteItem → Option String)) :=
  [(MediaAsset.createAt, NoteItem.createAt),
   (MediaAsset.createdAt, NoteItem.createdAt),
   (MediaAsset.create_at, NoteItem.create_at),
   (MediaAsset.created_at, NoteItem.created_at)]

/-- Scan one key table of `resolveMediaTimestamp`: at each key take the media
value, else the parent value; return it trimmed when the trim is nonempty,
otherwise move to the next key. -/
def scanKeyPairs (m : MediaAsset) (parent : NoteItem) :
    List ((MediaAsset → Option String) × (NoteItem → Option String)) → Option String
  | [] => none
  | (mf, pf) :: rest =>
    match pickFirstDefined [mf m, pf parent] with
    | some v =>
      if trimChars v.data = [] then scanKeyPairs m parent rest
      else some ⟨trimChars v.data⟩
    | none => scanKeyPairs m parent rest

/-- Model of `resolveMediaTimestamp(media, parent)`: all UTC key spellings
(media value before parent value at each key) before all civil-local ones. -/
def resolveMediaTimestamp (m : MediaAsset) (parent : NoteItem) : Option MediaTimestampInfo :=
  match scanKeyPairs m parent mediaUtcKeyPairs with
  | some v => some ⟨v, true⟩
  | none =>
    match scanKeyPairs m parent mediaLocalKeyPairs with
    | some v => some ⟨v, false⟩
    | none => none

/-- Model of `resolveAssetTimestamp(media, parent, fallback)` inside
`applySoftAssetLimit`: parse the `resolveMediaTimestamp` hit, else extract from
the media entry's own fields, else use the parent's resolved instant. -/
def resolveAssetTimestamp (tz : Int) (m : MediaAsset) (parent : NoteItem)
    (fallback : Option Int) : Option Int :=
  let direct : Option Int :=
    match resolveMediaTimestamp m parent with
    | some info => (parseTimestamp tz info.value info.hintUtc).map ParsedTimestamp.date
    | none => none
  match direct with
  | some d => some d
  | none =>
    match extractTimestampMedia tz m with
    | some p => some p.date
    | none => fallback

/-- Loop body of `findLatestTimestamp`: replace the accumulator when the item
resolves to a strictly later instant. -/
def latestStep (tz : Int) (latest : Option Int) (it : NoteItem) : Option Int :=
  match extractTimestamp tz it with
  | some p =>
    match latest with
    | none => some p.date
    | some l => if l < p.date then some p.date else some l
  | none => latest

/-- Model of `findLatestTimestamp(items)`: maximum resolved instant over the
list, `none` when no item resolves. -/
def findLatestTimestamp (tz : Int) (items : List NoteItem) : Option Int :=
  items.foldl (latestStep tz) none

/-- Model of `selectEffectiveStartDate(userStart, derivedStart)`. -/
def selectEffectiveStartDate (userStart derivedStart : Option Int) : Option Int :=
  match userStart with
  | none => derivedStart
  | some u =>
    match derivedStart with
    | none => some u
    | some d => if d < u then some u else some d

example : jsDateParse 0 "1970-01-02T00:00:00.500".data = some 86400500 := by decide
example : jsDateParse 60 "1970-01-02T00:00:00.500".data = some 82800500 := by decide
example : jsDateParse 60 "1970-01-02T00:00:00.500Z".data = some 86400500 := by decide
example : jsDateParse 0 "not-a-date".data = none := by decide
example :
    (parseTimestamp 0 "1970-01-01 00:00:00.100" false).map ParsedTimestamp.date = some 100 := by
  decide
example :
    (parseTimestamp 0 "1970-01-01 00:00:00.100" true).map ParsedTimestamp.date = some 100 := by
  decide

/-- Selection-time projection used by `applySoftAssetLimit`: originating item
position, media position, and resolved instant (or absent). -/
structure AssetRecord where
  itemIndex : Nat
  mediaIndex : Nat
  timestamp : Option Int
deriving DecidableEq

/-- Positional part of the sort comparator: item index, then media index. -/
def idxLE (a b : AssetRecord) : Bool :=
  if a.itemIndex = b.itemIndex then decide (a.mediaIndex ≤ b.mediaIndex)
  else decide (a.itemIndex < b.itemIndex)

/-- Boolean form of the `records.sort` comparator in `applySoftAssetLimit`:
instant ascending with an absent instant as positive infinity, ties broken by
item index then media index. -/
def recLE (a b : AssetRecord) : Bool :=
  match a.timestamp, b.timestamp with
  | some ta, some tb => if ta = tb then idxLE a b else decide (ta < tb)
  | some _, none => true
  | none, some _ => false
  | none, none => idxLE a b

/-- Propositional form of the sort comparator. -/
def recLEP (a b : AssetRecord) : Prop := recLE a b = true

instance : DecidableRel recLEP := fun a b =>
  inferInstanceAs (Decidable (recLE a b = true))

theorem idxLE_iff (a b : AssetRecord) :
    idxLE a b = true ↔
      (a.itemIndex < b.itemIndex ∨ (a.itemIndex = b.itemIndex ∧ a.mediaIndex ≤ b.mediaIndex)) := by
  unfold idxLE
  by_cases h : a.itemIndex = b.itemIndex <;> simp [h]

theorem recLE_iff (a b : AssetRecord) :
    recLEP a b ↔
      (match a.timestamp, b.timestamp with
       | some ta, some tb =>
         ta < tb ∨ (ta = tb ∧
           (a.itemIndex < b.itemIndex ∨
             (a.itemIndex = b.itemIndex ∧ a.mediaIndex ≤ b.mediaIndex)))
       | some _, none => True
       | none, some _ => False
       | none, none =>
         a.itemIndex < b.itemIndex ∨
           (a.itemIndex = b.itemIndex ∧ a.mediaIndex ≤ b.mediaIndex)) := by
  unfold recLEP recLE
  cases hta : a.timestamp <;> cases htb : b.timestamp
  · simpa using idxLE_iff a b
  · simp
  · simp
  · rename_i ta tb
    simp only
    by_cases h : ta = tb
    · subst h
      simp [idxLE_iff a b]
    · simp [h]

instance : IsTotal AssetRecord recLEP := by
  constructor
  intro a b
  rw [recLE_iff, recLE_iff]
  cases a.timestamp <;> cases b.timestamp <;> simp only <;> first | omega | tauto

instance : IsTrans AssetRecord recLEP := by
  constructor
  intro a b c hab hbc
  rw [recLE_iff] at hab hbc ⊢
  cases hta : a.timestamp <;> cases htb : b.timestamp <;> cases htc : c.timestamp <;>
    simp only [hta, htb, htc] at hab hbc ⊢ <;> omega

/-- Flattening step of `applySoftAssetLimit`: every `(item, media)` pair of the
input becomes an `AssetRecord`, resolving the instant via
`resolveAssetTimestamp` with the parent's extracted instant as fallback.  Items
without a media array or with an empty one contribute nothing. -/
def assetRecords (tz : Int) (items : List NoteItem) : List AssetRecord :=
  (items.enum).foldr
    (fun p acc =>
      match p.2.media with
      | none => acc
      | some [] => acc
      | some ms =>
        let parentTs := (extractTimestamp tz p.2).map ParsedTimestamp.date
        (ms.enum.map fun q =>
          ⟨p.1, q.1, resolveAssetTimestamp tz q.2 p.2 parentTs⟩) ++ acc)
    []

/-- The records after the in-place `records.sort(...)` of the source, modelled
with insertion sort under the comparator `recLEP` (the comparator is a total
preorder and all records have distinct index pairs, so any comparison sort
yields this order). -/
def sortedRecords (tz : Int) (items : List NoteItem) : List AssetRecord :=
  List.insertionSort recLEP (assetRecords tz items)

/-- Boundary update of the selection loop: a timestamped record moves the
boundary instant to its own instant. -/
def nextBoundary (r : AssetRecord) (boundary : Option Int) : Option Int :=
  match r.timestamp with
  | some t => some t
  | none => boundary

/-- The selection loop of `applySoftAssetLimit`: take records while under the
cap, remembering the boundary instant of the last timestamped record taken;
past the cap keep taking records whose instant equals the boundary; stop at the
first record with no instant or a different instant. -/
def selectLoop (cap : Nat) : List AssetRecord → Nat → Option Int → List AssetRecord
  | [], _, _ => []
  | r :: rs, len, boundary =>
    if len < cap then
      r :: selectLoop cap rs (len + 1) (nextBoundary r boundary)
    else
      match boundary with
      | none => []
      | some b =>
        match r.timestamp with
        | none => []
        | some t => if t = b then r :: selectLoop cap rs (len + 1) (some b) else []

/-- Selected records of `applySoftAssetLimit` for a given cap. -/
def selectedRecords (tz : Int) (items : List NoteItem) (cap : Nat) : List AssetRecord :=
  selectLoop cap (sortedRecords tz items) 0 none

/-- Accumulator step shared by the `cutoffTimestamp` and `latestAssetTimestamp`
loop of the source: keep the strictly larger instant. -/
def maxTsStep (acc : Option Int) (r : AssetRecord) : Option Int :=
  match r.timestamp, acc with
  | some t, none => some t
  | some t, some c => if c < t then some t else some c
  | none, acc' => acc'

/-- The source computes `cutoffTimestamp` and `latestAssetTimestamp` by one
backwards walk over the selected records, replacing the accumulator on a
strictly larger instant; both equal this fold. -/
def maxTsFromEnd (l : List AssetRecord) : Option Int := l.reverse.foldl maxTsStep none

/-- Reconstruction loop of `applySoftAssetLimit`: items without a media array
or with an empty one pass through as the original object; items with no
selected asset are dropped; otherwise a fresh shallow copy is built whose
media array keeps exactly the selected positions (the retained entries are the
original objects). -/
def rebuildLoop (sel : List AssetRecord) : Nat → List NoteItem → List NoteItem
  | _, [] => []
  | i, item :: rest =>
    match item.media with
    | none => item :: rebuildLoop sel (i + 1) rest
    | some [] => item :: rebuildLoop sel (i + 1) rest
    | some ms =>
      if sel.any (fun r => r.itemIndex == i) then
        { item with
          media := some ((ms.enum.filter fun q =>
            sel.any fun r => r.itemIndex == i && r.mediaIndex == q.1).map Prod.snd) }
          :: rebuildLoop sel (i + 1) rest
      else rebuildLoop sel (i + 1) rest

/-- Result record of `applySoftAssetLimit`. -/
structure SoftAssetLimitResult where
  filteredItems : List NoteItem
  totalAssets : Nat
  selectedAssets : Nat
  limited : Bool
  latestTimestamp : Option Int
  cutoffTimestamp : Option Int
deriving DecidableEq

/-- Model of `applySoftAssetLimit(items, maxAssets)` (src/cli.ts lines
293-494): flatten to asset records, return the input unmodified when the cap
is not exceeded, otherwise sort, select with boundary-tie inclusion, rebuild
the filtered items, and report the counts, boundary instant and latest
retained instant. -/
def applySoftAssetLimit (tz : Int) (items : List NoteItem) (maxAssets : Nat) :
    SoftAssetLimitResult :=
  if items = [] then
    ⟨items, 0, 0, false, findLatestTimestamp tz items, none⟩
  else
    let records := assetRecords tz items
    let totalAssets := records.length
    if totalAssets = 0 then
      ⟨items, 0, 0, false, findLatestTimestamp tz items, none⟩
    else if totalAssets ≤ maxAssets then
      ⟨items, totalAssets, totalAssets, false, findLatestTimestamp tz items, none⟩
    else
      let selected := selectedRecords tz items maxAssets
      let filteredItems := rebuildLoop selected 0 items
      let latestItemTimestampFallback := findLatestTimestamp tz filteredItems
      let latestAssetTimestamp := maxTsFromEnd selected
      let cutoffTimestamp := maxTsFromEnd selected
      let latestTimestamp :=
        match latestAssetTimestamp with
        | some v => some v
        | none =>
          match latestItemTimestampFallback with
          | some v => some v
          | none => findLatestTimestamp tz filteredItems
      ⟨filteredItems, totalAssets, selected.length, decide (selected.length < totalAssets),
        latestTimestamp, cutoffTimestamp⟩

def scenarioTieNote : NoteItem :=
  { media := some [{ createAtUtc := some "2025-09-17 10:00:00.000" },
                   { createAtUtc := some "2025-09-17 10:00:00.000" }] }

example : (applySoftAssetLimit 0 [scenarioTieNote] 1).selectedAssets = 2 := by decide
example : (applySoftAssetLimit 0 [scenarioTieNote] 1).limited = false := by decide
example : (applySoftAssetLimit 0 [scenarioTieNote] 3).filteredItems = [scenarioTieNote] := by decide

def scenarioThreeNotes : List NoteItem :=
  [{ create_at := some "2025-09-17 10:00:00.000", media := some [{}] },
   { create_at := some "2025-09-17 10:05:00.000", media := some [{}] },
   { create_at := some "2025-09-17 10:10:00.000", media := some [{}] }]

example : (applySoftAssetLimit 0 scenarioThreeNotes 2).limited = true := by decide
example :
    (applySoftAssetLimit 0 scenarioThreeNotes 2).cutoffTimestamp =
      (parseTimestamp 0 "2025-09-17 10:05:00.000" false).map ParsedTimestamp.date := by decide

/-- Left-pad a natural number to two decimal digits. -/
def pad2 (n : Nat) : List Char :=
  if n < 10 then '0' :: (Nat.toDigits 10 n) else Nat.toDigits 10 n

/-- Left-pad a natural number to three decimal digits. -/
def pad3 (n : Nat) : List Char :=
  if n < 10 then '0' :: '0' :: (Nat.toDigits 10 n)
  else if n < 100 then '0' :: (Nat.toDigits 10 n)
  else Nat.toDigits 10 n

/-- Left-pad a natural number to four decimal digits. -/
def pad4 (n : Nat) : List Char :=
  if n < 10 then '0' :: '0' :: '0' :: (Nat.toDigits 10 n)
  else if n < 100 then '0' :: '0' :: (Nat.toDigits 10 n)
  else if n < 1000 then '0' :: (Nat.toDigits 10 n)
  else Nat.toDigits 10 n

/-- Render an epoch-millisecond instant as the `yyyy-MM-dd HH:mm:ss.SSS`
string of its UTC civil fields (valid for years 0-9999). -/
def civilString (ms : Int) : String :=
  let day := Int.fdiv ms 86400000
  let rem := (ms - day * 86400000).toNat
  let ymd := civilFromDays day
  let h := rem / 3600000
  let mi := rem % 3600000 / 60000
  let s := rem % 60000 / 1000
  let msp := rem % 1000
  ⟨pad4 ymd.1.toNat ++ '-' :: pad2 ymd.2.1 ++ '-' :: pad2 ymd.2.2 ++ ' ' :: pad2 h
    ++ ':' :: pad2 mi ++ ':' :: pad2 s ++ '.' :: pad3 msp⟩

/-- Model of `formatForApi(date, { treatAsUTC })`: with `treatAsUTC` and a
recorded `lastTimezoneOffsetHours`, the source shifts the date by that many
hours and renders it with `date-fns` `format` (which uses the process-local
zone `tz`); with `treatAsUTC` and no recorded offset it renders
`toISOString()` with the `T` replaced by a space and the `Z` dropped; without
`treatAsUTC` it renders with `format` in the process-local zone. -/
def formatForApi (tz : Int) (lastTzOffsetHours : Option Int) (ms : Int)
    (treatAsUTC : Bool) : String :=
  if treatAsUTC then
    match lastTzOffsetHours with
    | some h => civilString (ms + h * 3600000 + tz * 60000)
    | none => civilString ms
  else civilString (ms + tz * 60000)

/-- Accumulator step of the "oldest" tracking in `filterByRangeAndFindNext`:
an item without a resolvable timestamp leaves the accumulator unchanged, a
strictly older instant replaces it. -/
def oldestStep (tz : Int) (acc : Option (Int × Bool)) (it : NoteItem) : Option (Int × Bool) :=
  match extractTimestamp tz it with
  | some p =>
    match acc with
    | none => some (p.date, p.treatAsUTC)
    | some (o, u) => if p.date < o then some (p.date, p.treatAsUTC) else some (o, u)
  | none => acc

/-- The running "oldest" accumulator of `filterByRangeAndFindNext`: the least
resolved instant over the page together with its `treatAsUTC` basis flag. -/
def oldestResolved (tz : Int) (items : List NoteItem) : Option (Int × Bool) :=
  items.foldl (oldestStep tz) none

/-- Keep test of the `filterByRangeAndFindNext` loop: an item without a
resolvable timestamp is always kept; otherwise it must not lie before the
start instant nor at/after the exclusive end. -/
def keepInRange (tz : Int) (startDate exclusiveEnd : Option Int) (it : NoteItem) : Bool :=
  match extractTimestamp tz it with
  | none => true
  | some p =>
    (match startDate with
     | some sd => decide (sd ≤ p.date)
     | none => true)
    && (match exclusiveEnd with
        | some ee => decide (p.date < ee)
        | none => true)

/-- Model of `filterByRangeAndFindNext(items, startDate, endDate)`: keep the
in-range items (always keeping unresolvable ones), track the page's oldest
resolved instant, and return it as the next cursor unless the instant minus
one millisecond would not move past the start instant.  `addDays(endDate, 1)`
is one calendar day of 86400000 ms in the fixed-offset zone model. -/
def filterByRangeAndFindNext (tz : Int) (items : List NoteItem)
    (startDate endDate : Option Int) : List NoteItem × Option (Int × Bool) :=
  if items = [] then ([], none)
  else
    let exclusiveEnd := endDate.map (· + 86400000)
    let kept := items.filter (keepInRange tz startDate exclusiveEnd)
    match oldestResolved tz items with
    | none => (kept, none)
    | some (od, u) =>
      match startDate with
      | some sd => if ¬sd < od - 1 then (kept, none) else (kept, some (od, u))
      | none => (kept, some (od, u))

/-- Model of the cursor update at the end of each `fetchNotesRange` page
(src/cli.ts lines 1519-1526): format the next cursor instant; when it equals
the previous cursor, fall back to the instant minus one millisecond; when even
that does not advance, stop (`none`). -/
def computeNextBefore (tz : Int) (lastTzOffsetHours : Option Int) (beforeCursor : String)
    (nc : Int × Bool) : Option String :=
  let nextBefore := formatForApi tz lastTzOffsetHours nc.1 nc.2
  if nextBefore = beforeCursor then
    let fallback := formatForApi tz lastTzOffsetHours (nc.1 - 1) nc.2
    if fallback = beforeCursor then none else some fallback
  else some nextBefore

/-- Identity of a note for deduplication: the first present identity candidate
as a string, else the whole item standing in for the source's
`JSON.stringify` content fingerprint. -/
inductive StableId where
  | strId (s : String)
  | fingerprint (n : NoteItem)
deriving DecidableEq

/-- Model of `deriveStableId(item)`: identity candidates in source order, then
the content fingerprint. -/
def deriveStableId (it : NoteItem) : StableId :=
  match pickFirstIdCandidate
      [it.id, it.note_id, it.noteId, it.child_media_id, it.childMediaId,
       it.create_at, it.createAt, it.createdAt, it.timestamp] with
  | some s => .strId s
  | none => .fingerprint it
where
  pickFirstIdCandidate : List (Option String) → Option String
    | [] => none
    | some v :: _ => some v
    | none :: rest => pickFirstIdCandidate rest

/-- The dedup accumulation of `fetchNotesRange`: append items whose stable id
has not been seen, in arrival order. -/
def dedupByStableId (items : List NoteItem) : List NoteItem :=
  go [] items
where
  go (seen : List StableId) : List NoteItem → List NoteItem
    | [] => []
    | it :: rest =>
      let sid := deriveStableId it
      if seen.contains sid then go seen rest
      else it :: go (sid :: seen) rest

/-- Watermark-relevant part of the sync action for one enrollment with an
already fetched, range-filtered and deduplicated item list (src/cli.ts lines
175-223): apply the soft asset limit when a cap is configured, fall back to
`findLatestTimestamp`, skip the state update when nothing remains to process,
and return the watermark instant written to the state file (`none` when the
enrollment's entry is left untouched). -/
def processFetchedItems (tz : Int) (fetched : List NoteItem) (maxAssets : Option Nat) :
    Option Int :=
  let processedItems :=
    match maxAssets with
    | some cap => (applySoftAssetLimit tz fetched cap).filteredItems
    | none => fetched
  let latestTimestampForState :=
    match maxAssets with
    | some cap => (applySoftAssetLimit tz fetched cap).latestTimestamp
    | none => findLatestTimestamp tz fetched
  let latestTimestampForState :=
    match latestTimestampForState with
    | none => findLatestTimestamp tz processedItems
    | some v => some v
  if processedItems = [] then none
  else
    match latestTimestampForState with
    | some v => some v
    | none => findLatestTimestamp tz processedItems

/-- One sync of a single enrollment over a static dataset (src/cli.ts lines
141-223): the resume start is the stored watermark plus one millisecond, the
feed delivers the dataset as a single page which is range-filtered and
deduplicated, and the returned value is the watermark written for this
enrollment (`none` when it is left unchanged). -/
def runEnrollmentSync (tz : Int) (dataset : List NoteItem) (stored : Option Int)
    (maxAssets : Option Nat) : Option Int :=
  let derivedStart := stored.map (· + 1)
  let effectiveStart := selectEffectiveStartDate none derivedStart
  let fetched := dedupByStableId (filterByRangeAndFindNext tz dataset effectiveStart none).1
  processFetchedItems tz fetched maxAssets

/-- An HTTP response of the notes feed: status code and the delivered items
(the envelope unwrapping of `fetchNotesRange` is folded into `json`). -/
structure HttpResp where
  status : Nat
  json : List NoteItem
deriving DecidableEq

/-- Playwright's `response.ok()`: status in the 2xx range. -/
def respOk (r : HttpResp) : Bool := 200 ≤ r.status && r.status < 300

/-- The retry bound `MAX_RETRIES` of the source. -/
def MAX_RETRIES : Nat := 4

/-- Model of `robustGetJSON(request, url, tryNum)` against a response sequence
`resp` indexed by attempt number: a 5xx or 429 status retries while attempts
remain, any other non-success status raises the fatal feed error carrying the
status.  The `fuel` argument carries `MAX_RETRIES - tryNum`, so `fuel = 0`
exactly models the exhausted guard `tryNum < MAX_RETRIES` failing. -/
def robustGetJSONFrom (resp : Nat → HttpResp) : Nat → Nat → Except Nat (List NoteItem)
  | tryNum, fuel =>
    let r := resp tryNum
    if 500 ≤ r.status ∨ r.status = 429 then
      match fuel with
      | f + 1 => robustGetJSONFrom resp (tryNum + 1) f
      | 0 => if respOk r then .ok r.json else .error r.status
    else if respOk r then .ok r.json else .error r.status

/-- Model of `robustGetJSON` entered at attempt 0. -/
def robustGetJSON (resp : Nat → HttpResp) : Except Nat (List NoteItem) :=
  robustGetJSONFrom resp 0 MAX_RETRIES

/-- One enrollment as the sync action sees it: the identity candidate fields
consulted by `extractEnrollmentId`. -/
structure Enrollment where
  enrollment_id : Option String := none
  enrollmentId : Option String := none
  enrollmentID : Option String := none
  id : Option String := none
  childEnrollmentId : Option String := none
deriving DecidableEq

/-- Model of `extractEnrollmentId(enrollment)`. -/
def extractEnrollmentId (e : Enrollment) : Option String :=
  match e.enrollment_id with
  | some v => some v
  | none =>
    match e.enrollmentId with
    | some v => some v
    | none =>
      match e.enrollmentID with
      | some v => some v
      | none =>
        match e.id with
        | some v => some v
        | none => e.childEnrollmentId

/-- Read an enrollment's stored watermark from the state mapping. -/
def stateLookup (st : List (String × Int)) (eid : String) : Option Int :=
  (st.find? (fun p => p.1 == eid)).map Prod.snd

/-- Write an enrollment's watermark into the state mapping. -/
def stateInsert (st : List (String × Int)) (eid : String) (v : Int) : List (String × Int) :=
  if st.any (fun p => p.1 == eid) then
    st.map (fun p => if p.1 == eid then (p.1, v) else p)
  else st ++ [(eid, v)]

/-- Outcome of one whole `sync` run: the state written to the state file
(`none` when `saveSyncState` was never reached or nothing advanced), the
enrollments processed to completion, and whether an uncaught error aborted the
run. -/
structure SyncOutcome where
  persisted : Option (List (String × Int))
  processed : List String
  crashed : Bool
deriving DecidableEq

/-- Model of the per-enrollment loop of the `sync` action (src/cli.ts lines
125-231): enrollments without an identity are skipped with a warning; a fatal
feed error propagates out of the loop uncaught, so the remaining enrollments
are never visited and `saveSyncState` is never called; otherwise the
enrollment is processed and its watermark update recorded; after the loop the
state is saved only when some enrollment advanced. -/
def syncLoop (tz : Int) (feed : String → Nat → HttpResp) (maxAssets : Option Nat) :
    List Enrollment → List (String × Int) → Bool → List String → SyncOutcome
  | [], st, updated, procd => ⟨if updated then some st else none, procd, false⟩
  | e :: rest, st, updated, procd =>
    match extractEnrollmentId e with
    | none => syncLoop tz feed maxAssets rest st updated procd
    | some eid =>
      match robustGetJSON (feed eid) with
      | .error _ => ⟨none, procd, true⟩
      | .ok page =>
        match runEnrollmentSync tz page (stateLookup st eid) maxAssets with
        | none => syncLoop tz feed maxAssets rest st updated (procd ++ [eid])
        | some w =>
          syncLoop tz feed maxAssets rest (stateInsert st eid w) true (procd ++ [eid])

/-- A whole `sync` run over an enrollment list, a feed, and an initial state
file content. -/
def syncAction (tz : Int) (feed : String → Nat → HttpResp) (maxAssets : Option Nat)
    (enrollments : List Enrollment) (st : List (String × Int)) : SyncOutcome :=
  syncLoop tz feed maxAssets enrollments st false []

theorem recLE_some_le {a b : AssetRecord} {x y : Int} (h : recLEP a b)
    (ha : a.timestamp = some x) (hb : b.timestamp = some y) : x ≤ y := by
  rw [recLE_iff] at h
  rw [ha, hb] at h
  simp only at h
  omega

theorem recLE_none_some {a b : AssetRecord} {y : Int} (h : recLEP a b)
    (ha : a.timestamp = none) (hb : b.timestamp = some y) : False := by
  rw [recLE_iff] at h
  rw [ha, hb] at h
  exact h

theorem selectLoop_decomp (cap : Nat) :
    ∀ (l : List AssetRecord) (n : Nat) (b : Option Int),
      ∃ rest, l = selectLoop cap l n b ++ rest := by
  intro l
  induction l with
  | nil => intro n b; exact ⟨[], rfl⟩
  | cons r rs ih =>
    intro n b
    unfold selectLoop
    by_cases hn : n < cap
    · rw [if_pos hn]
      obtain ⟨rest, hrest⟩ :=
        ih (n + 1) (nextBoundary r b)
      exact ⟨rest, by rw [List.cons_append]; exact congrArg (r :: ·) hrest⟩
    · rw [if_neg hn]
      cases b with
      | none => exact ⟨r :: rs, rfl⟩
      | some bv =>
        cases hrt : r.timestamp with
        | none => exact ⟨r :: rs, rfl⟩
        | some t =>
          dsimp only
          by_cases ht : t = bv
          · rw [if_pos ht]
            obtain ⟨rest, hrest⟩ := ih (n + 1) (some bv)
            exact ⟨rest, by rw [List.cons_append]; exact congrArg (r :: ·) hrest⟩
          · rw [if_neg ht]
            exact ⟨r :: rs, rfl⟩

theorem selectLoop_length (cap : Nat) :
    ∀ (l : List AssetRecord) (n : Nat) (b : Option Int),
      min (cap - n) l.length ≤ (selectLoop cap l n b).length := by
  intro l
  induction l with
  | nil => intro n b; simp [selectLoop]
  | cons r rs ih =>
    intro n b
    unfold selectLoop
    by_cases hn : n < cap
    · rw [if_pos hn]
      have := ih (n + 1) (nextBoundary r b)
      simp only [List.length_cons]
      omega
    · rw [if_neg hn]
      have : cap - n = 0 := by omega
      simp [this]

theorem maxTsFold_ub :
    ∀ (l : List AssetRecord) (acc : Option Int),
      (∀ t, acc = some t → ∃ c, l.foldl maxTsStep acc = some c ∧ t ≤ c) ∧
      (∀ r ∈ l, ∀ t, r.timestamp = some t → ∃ c, l.foldl maxTsStep acc = some c ∧ t ≤ c) := by
  intro l
  induction l with
  | nil => intro acc; exact ⟨fun t ht => ⟨t, ht, le_refl t⟩, by simp⟩
  | cons r rs ih =>
    intro acc
    constructor
    · intro t ht
      subst ht
      rw [List.foldl_cons]
      cases hrt : r.timestamp with
      | none =>
        have : maxTsStep (some t) r = some t := by simp [maxTsStep, hrt]
        rw [this]
        exact (ih (some t)).1 t rfl
      | some u =>
        by_cases hlt : t < u
        · have : maxTsStep (some t) r = some u := by simp [maxTsStep, hrt, hlt]
          rw [this]
          obtain ⟨c, hc, huc⟩ := (ih (some u)).1 u rfl
          exact ⟨c, hc, by omega⟩
        · have : maxTsStep (some t) r = some t := by simp [maxTsStep, hrt, hlt]
          rw [this]
          exact (ih (some t)).1 t rfl
    · intro r' hr' t ht
      rw [List.foldl_cons]
      rcases List.mem_cons.mp hr' with h | h
      · subst h
        have hstep : ∃ u, maxTsStep acc r' = some u ∧ t ≤ u := by
          cases hacc : acc with
          | none => exact ⟨t, by simp [maxTsStep, ht], le_refl t⟩
          | some a =>
            by_cases hlt : a < t
            · exact ⟨t, by simp [maxTsStep, ht, hlt], le_refl t⟩
            · exact ⟨a, by simp [maxTsStep, ht, hlt], by omega⟩
        obtain ⟨u, hu, htu⟩ := hstep
        rw [hu]
        obtain ⟨c, hc, huc⟩ := (ih (some u)).1 u rfl
        exact ⟨c, hc, by omega⟩
      · exact (ih (maxTsStep acc r)).2 r' h t ht

theorem maxTsFold_attain :
    ∀ (l : List AssetRecord) (acc : Option Int) (c : Int),
      l.foldl maxTsStep acc = some c →
      acc = some c ∨ ∃ r ∈ l, r.timestamp = some c := by
  intro l
  induction l with
  | nil => intro acc c h; exact Or.inl h
  | cons r rs ih =>
    intro acc c h
    rw [List.foldl_cons] at h
    rcases ih (maxTsStep acc r) c h with h' | h'
    · cases hrt : r.timestamp with
      | none =>
        simp only [maxTsStep, hrt] at h'
        exact Or.inl h'
      | some t =>
        cases hacc : acc with
        | none =>
          simp only [maxTsStep, hrt, hacc] at h'
          exact Or.inr ⟨r, List.mem_cons_self r rs, by rw [hrt, h']⟩
        | some a =>
          simp only [maxTsStep, hrt, hacc] at h'
          by_cases hlt : a < t
          · rw [if_pos hlt] at h'
            exact Or.inr ⟨r, List.mem_cons_self r rs, by rw [hrt, h']⟩
          · rw [if_neg hlt] at h'
            exact Or.inl h'
    · obtain ⟨r', hr', ht⟩ := h'
      exact Or.inr ⟨r', List.mem_cons_of_mem r hr', ht⟩

theorem maxTsFromEnd_ub {l : List AssetRecord} {r : AssetRecord} {t : Int}
    (hr : r ∈ l) (ht : r.timestamp = some t) :
    ∃ c, maxTsFromEnd l = some c ∧ t ≤ c :=
  (maxTsFold_ub l.reverse none).2 r (List.mem_reverse.mpr hr) t ht

theorem maxTsFromEnd_attain {l : List AssetRecord} {c : Int}
    (h : maxTsFromEnd l = some c) : ∃ r ∈ l, r.timestamp = some c := by
  rcases maxTsFold_attain l.reverse none c h with h' | h'
  · exact absurd h' (by simp)
  · obtain ⟨r, hr, ht⟩ := h'
    exact ⟨r, List.mem_reverse.mp hr, ht⟩

theorem assetRecords_nil (tz : Int) : assetRecords tz [] = [] := rfl

theorem softLimit_not_exceeded (tz : Int) (items : List NoteItem) (cap : Nat)
    (h : (assetRecords tz items).length ≤ cap) :
    applySoftAssetLimit tz items cap =
      ⟨items, (assetRecords tz items).length, (assetRecords tz items).length, false,
        findLatestTimestamp tz items, none⟩ := by
  by_cases hne : items = []
  · subst hne
    simp [applySoftAssetLimit, assetRecords_nil]
  · unfold applySoftAssetLimit
    rw [if_neg hne]
    dsimp only
    by_cases h0 : (assetRecords tz items).length = 0
    · rw [if_pos h0, h0]
    · rw [if_neg h0, if_pos h]

theorem softLimit_main_fields (tz : Int) (items : List NoteItem) (cap : Nat)
    (h : cap < (assetRecords tz items).length) :
    applySoftAssetLimit tz items cap =
      ⟨rebuildLoop (selectedRecords tz items cap) 0 items,
       (assetRecords tz items).length,
       (selectedRecords tz items cap).length,
       decide ((selectedRecords tz items cap).length < (assetRecords tz items).length),
       (match maxTsFromEnd (selectedRecords tz items cap) with
        | some v => some v
        | none =>
          match findLatestTimestamp tz (rebuildLoop (selectedRecords tz items cap) 0 items) with
          | some v => some v
          | none => findLatestTimestamp tz (rebuildLoop (selectedRecords tz items cap) 0 items)),
       maxTsFromEnd (selectedRecords tz items cap)⟩ := by
  have hne : items ≠ [] := by
    intro he
    subst he
    rw [assetRecords_nil] at h
    simp at h
  have h0 : ¬(assetRecords tz items).length = 0 := by omega
  have h1 : ¬(assetRecords tz items).length ≤ cap := by omega
  unfold applySoftAssetLimit
  rw [if_neg hne]
  dsimp only
  rw [if_neg h0, if_neg h1]

/-- C1: for every note list and every positive cap `C` strictly below the total
number of `(note, media)` asset records, `applySoftAssetLimit` selects at least
`C` assets; every selected asset with a resolved instant has its instant at or
below the returned `cutoffTimestamp`, and every unselected asset with a
resolved instant has its instant at or above the `cutoffTimestamp`. -/
theorem softAssetLimit_cap_and_cutoff_bounds (tz : Int) (items : List NoteItem) (C : Nat)
    (hC : 0 < C) (hlt : C < (assetRecords tz items).length) :
    C ≤ (applySoftAssetLimit tz items C).selectedAssets ∧
    ∃ rest, sortedRecords tz items = selectedRecords tz items C ++ rest ∧
      (∀ r ∈ selectedRecords tz items C, ∀ t : Int, r.timestamp = some t →
        ∃ c, (applySoftAssetLimit tz items C).cutoffTimestamp = some c ∧ t ≤ c) ∧
      (∀ r ∈ rest, ∀ t : Int, r.timestamp = some t →
        ∃ c, (applySoftAssetLimit tz items C).cutoffTimestamp = some c ∧ c ≤ t) := by
  have hfields := softLimit_main_fields tz items C hlt
  have hsel : (applySoftAssetLimit tz items C).selectedAssets =
      (selectedRecords tz items C).length := by rw [hfields]
  have hcut : (applySoftAssetLimit tz items C).cutoffTimestamp =
      maxTsFromEnd (selectedRecords tz items C) := by rw [hfields]
  have hlen : (sortedRecords tz items).length = (assetRecords tz items).length :=
    (List.perm_insertionSort recLEP (assetRecords tz items)).length_eq
  have hmin := selectLoop_length C (sortedRecords tz items) 0 none
  constructor
  · rw [hsel]
    unfold selectedRecords
    omega
  · obtain ⟨rest, hdecomp⟩ := selectLoop_decomp C (sortedRecords tz items) 0 none
    have hsorted : List.Sorted recLEP (sortedRecords tz items) :=
      List.sorted_insertionSort recLEP (assetRecords tz items)
    have hpair : ∀ x ∈ selectedRecords tz items C, ∀ y ∈ rest, recLEP x y := by
      have hs := hsorted
      rw [hdecomp] at hs
      exact fun x hx y hy => (List.pairwise_append.mp hs).2.2 x hx y hy
    refine ⟨rest, hdecomp, ?_, ?_⟩
    · intro r hr t ht
      rw [hcut]
      exact maxTsFromEnd_ub hr ht
    · intro r hr t ht
      have hselne : selectedRecords tz items C ≠ [] := by
        have hpos : 0 < (selectedRecords tz items C).length := by
          unfold selectedRecords
          omega
        exact List.ne_nil_of_length_pos hpos
      obtain ⟨r0, sel', hsel'⟩ := List.exists_cons_of_ne_nil hselne
      have hr0mem : r0 ∈ selectedRecords tz items C := by
        rw [hsel']
        exact List.mem_cons_self _ _
      cases h0 : r0.timestamp with
      | none => exact (recLE_none_some (hpair r0 hr0mem r hr) h0 ht).elim
      | some t0 =>
        obtain ⟨c, hc, -⟩ := maxTsFromEnd_ub hr0mem h0
        obtain ⟨r', hr'mem, hr'ts⟩ := maxTsFromEnd_attain hc
        have hcle : c ≤ t := recLE_some_le (hpair r' hr'mem r hr) hr'ts ht
        exact ⟨c, by rw [hcut]; exact hc, hcle⟩

theorem softAssetLimit_cap_and_cutoff_bounds_witness :
    0 < 2 ∧ 2 < (assetRecords 0 scenarioThreeNotes).length ∧
    2 ≤ (applySoftAssetLimit 0 scenarioThreeNotes 2).selectedAssets :=
  ⟨by decide, by decide,
    (softAssetLimit_cap_and_cutoff_bounds 0 scenarioThreeNotes 2 (by decide) (by decide)).1⟩

/-- Instant both media entries of `scenarioTieNote` resolve to: the civil
instant of `2025-09-17 10:00:00.000` read as local time in the zone `tz`
(the zone-marker regex of `parseTimestamp` matches the date's hyphens, so no
`Z` is appended). -/
def scenarioTieInstant (tz : Int) : Int := 1758103200000 - tz * 60000

theorem scenarioTieRecords (tz : Int) :
    assetRecords tz [scenarioTieNote] =
      [⟨0, 0, some (scenarioTieInstant tz)⟩, ⟨0, 1, some (scenarioTieInstant tz)⟩] := rfl

theorem scenarioTieSorted (tz : Int) :
    sortedRecords tz [scenarioTieNote] =
      [⟨0, 0, some (scenarioTieInstant tz)⟩, ⟨0, 1, some (scenarioTieInstant tz)⟩] := by
  unfold sortedRecords
  rw [scenarioTieRecords]
  have hle : recLEP ⟨0, 0, some (scenarioTieInstant tz)⟩
      ⟨0, 1, some (scenarioTieInstant tz)⟩ := by
    rw [recLE_iff]; simp
  simp [List.insertionSort, List.orderedInsert, hle]

theorem scenarioTieSelected (tz : Int) :
    selectedRecords tz [scenarioTieNote] 1 =
      [⟨0, 0, some (scenarioTieInstant tz)⟩, ⟨0, 1, some (scenarioTieInstant tz)⟩] := by
  unfold selectedRecords
  rw [scenarioTieSorted]
  simp [selectLoop, nextBoundary]

/-- C8: `applySoftAssetLimit` reports `limited = true` exactly when the
selected count is strictly below the total count; for any cap at or above the
total the unmodified input is returned with `limited = false`; and for a
single note with two media entries sharing the identical absolute timestamp
`2025-09-17 10:00:00.000` under cap 1, both assets are selected by
tie-inclusion and `limited = false` because selected equals total. -/
theorem softAssetLimit_limited_iff_and_tie (tz : Int) (items : List NoteItem) (cap : Nat) :
    ((applySoftAssetLimit tz items cap).limited = true ↔
      (applySoftAssetLimit tz items cap).selectedAssets <
        (applySoftAssetLimit tz items cap).totalAssets) ∧
    ((assetRecords tz items).length ≤ cap →
      (applySoftAssetLimit tz items cap).filteredItems = items ∧
      (applySoftAssetLimit tz items cap).limited = false) ∧
    (∀ tz' : Int,
      (applySoftAssetLimit tz' [scenarioTieNote] 1).totalAssets = 2 ∧
      (applySoftAssetLimit tz' [scenarioTieNote] 1).selectedAssets = 2 ∧
      (applySoftAssetLimit tz' [scenarioTieNote] 1).limited = false) := by
  refine ⟨?_, ?_, ?_⟩
  · by_cases h : cap < (assetRecords tz items).length
    · rw [softLimit_main_fields tz items cap h]
      simp
    · push_neg at h
      rw [softLimit_not_exceeded tz items cap h]
      simp
  · intro h
    rw [softLimit_not_exceeded tz items cap h]
    exact ⟨rfl, rfl⟩
  · intro tz'
    have h2 : (assetRecords tz' [scenarioTieNote]).length = 2 := by
      rw [scenarioTieRecords]; rfl
    have hlt : 1 < (assetRecords tz' [scenarioTieNote]).length := by omega
    rw [softLimit_main_fields tz' [scenarioTieNote] 1 hlt]
    refine ⟨h2, ?_, ?_⟩
    · show (selectedRecords tz' [scenarioTieNote] 1).length = 2
      rw [scenarioTieSelected]
      rfl
    · show decide ((selectedRecords tz' [scenarioTieNote] 1).length <
        (assetRecords tz' [scenarioTieNote]).length) = false
      rw [scenarioTieSelected, h2]
      rfl

theorem softAssetLimit_limited_iff_and_tie_witness :
    (assetRecords 0 [scenarioTieNote]).length ≤ 2 ∧
    (applySoftAssetLimit 0 [scenarioTieNote] 2).filteredItems = [scenarioTieNote] ∧
    (applySoftAssetLimit 0 [scenarioTieNote] 2).limited = false :=
  ⟨by decide,
    ((softAssetLimit_limited_iff_and_tie 0 [scenarioTieNote] 2).2.1 (by decide)).1,
    ((softAssetLimit_limited_iff_and_tie 0 [scenarioTieNote] 2).2.1 (by decide)).2⟩

/-- A filtered item's media array relates to a source item's: either untouched
or trimmed to a sublist of the original entries. -/
def optionMediaSub (a b : Option (List MediaAsset)) : Prop :=
  a = b ∨ ∃ l l', b = some l ∧ a = some l' ∧ l'.Sublist l

theorem rebuildLoop_shape (sel : List AssetRecord) :
    ∀ (l : List NoteItem) (k : Nat) (o : NoteItem), o ∈ rebuildLoop sel k l →
      ∃ i ∈ l, o = { i with media := o.media } ∧ optionMediaSub o.media i.media := by
  intro l
  induction l with
  | nil => intro k o ho; simp [rebuildLoop] at ho
  | cons item rest ih =>
    intro k o ho
    unfold rebuildLoop at ho
    cases hm : item.media with
    | none =>
      rw [hm] at ho
      dsimp only at ho
      rcases List.mem_cons.mp ho with h | h
      · subst h
        exact ⟨o, List.mem_cons_self _ _, rfl, Or.inl rfl⟩
      · obtain ⟨i, hi, h1, h2⟩ := ih (k + 1) o h
        exact ⟨i, List.mem_cons_of_mem _ hi, h1, h2⟩
    | some ms =>
      cases ms with
      | nil =>
        rw [hm] at ho
        dsimp only at ho
        rcases List.mem_cons.mp ho with h | h
        · subst h
          exact ⟨o, List.mem_cons_self _ _, rfl, Or.inl rfl⟩
        · obtain ⟨i, hi, h1, h2⟩ := ih (k + 1) o h
          exact ⟨i, List.mem_cons_of_mem _ hi, h1, h2⟩
      | cons m ms' =>
        rw [hm] at ho
        dsimp only at ho
        by_cases hs : sel.any (fun r => r.itemIndex == k)
        · rw [if_pos hs] at ho
          rcases List.mem_cons.mp ho with h | h
          · subst h
            refine ⟨item, List.mem_cons_self _ _, rfl, Or.inr ⟨m :: ms', _, hm, rfl, ?_⟩⟩
            have hsub :
                ((List.filter (fun q => sel.any fun r => r.itemIndex == k && r.mediaIndex == q.1)
                  ((m :: ms').enum)).map Prod.snd).Sublist (((m :: ms').enum).map Prod.snd) :=
              (List.filter_sublist _).map Prod.snd
            simpa using hsub
          · obtain ⟨i, hi, h1, h2⟩ := ih (k + 1) o h
            exact ⟨i, List.mem_cons_of_mem _ hi, h1, h2⟩
        · rw [if_neg hs] at ho
          obtain ⟨i, hi, h1, h2⟩ := ih (k + 1) o ho
          exact ⟨i, List.mem_cons_of_mem _ hi, h1, h2⟩

/-- C9: `applySoftAssetLimit` never alters an input `NoteItem` or
`MediaAsset`: in the pure model, every output item is either an input item
itself or a fresh shallow copy of one that differs only in its `media` array,
and that array is a sublist of the original's entries, carried over
unchanged. -/
theorem softAssetLimit_preserves_originals (tz : Int) (items : List NoteItem) (cap : Nat)
    (o : NoteItem) (ho : o ∈ (applySoftAssetLimit tz items cap).filteredItems) :
    ∃ i ∈ items, o = { i with media := o.media } ∧ optionMediaSub o.media i.media := by
  by_cases h : cap < (assetRecords tz items).length
  · rw [softLimit_main_fields tz items cap h] at ho
    exact rebuildLoop_shape _ items 0 o ho
  · push_neg at h
    rw [softLimit_not_exceeded tz items cap h] at ho
    exact ⟨o, ho, rfl, Or.inl rfl⟩

theorem softAssetLimit_preserves_originals_witness :
    scenarioTieNote ∈ (applySoftAssetLimit 0 [scenarioTieNote] 1).filteredItems ∧
    ∃ i ∈ [scenarioTieNote], scenarioTieNote = { i with media := scenarioTieNote.media } ∧
      optionMediaSub scenarioTieNote.media i.media :=
  ⟨by decide,
    softAssetLimit_preserves_originals 0 [scenarioTieNote] 1 scenarioTieNote (by decide)⟩

theorem filterByRange_fst (tz : Int) (items : List NoteItem) (s e : Option Int)
    (h : items ≠ []) :
    (filterByRangeAndFindNext tz items s e).1 =
      items.filter (keepInRange tz s (e.map (· + 86400000))) := by
  unfold filterByRangeAndFindNext
  rw [if_neg h]
  dsimp only
  split
  · rfl
  · split
    · split <;> rfl
    · rfl

theorem filterByRange_cursor_eq_oldest (tz : Int) (items : List NoteItem) (s e : Option Int)
    (d : Int) (u : Bool) (h : (filterByRangeAndFindNext tz items s e).2 = some (d, u)) :
    oldestResolved tz items = some (d, u) := by
  unfold filterByRangeAndFindNext at h
  by_cases hne : items = []
  · rw [if_pos hne] at h
    exact absurd h (by simp)
  · rw [if_neg hne] at h
    dsimp only at h
    cases ho : oldestResolved tz items with
    | none => rw [ho] at h; simp at h
    | some p =>
      obtain ⟨od, u'⟩ := p
      rw [ho] at h
      cases s with
      | none => simpa using h
      | some sd =>
        dsimp only at h
        by_cases hc : ¬sd < od - 1
        · rw [if_pos hc] at h; simp at h
        · rw [if_neg hc] at h
          simpa using h

theorem oldestResolved_skip (tz : Int) {n : NoteItem} (hn : extractTimestamp tz n = none)
    (l1 l2 : List NoteItem) :
    oldestResolved tz (l1 ++ n :: l2) = oldestResolved tz (l1 ++ l2) := by
  unfold oldestResolved
  rw [List.foldl_append, List.foldl_cons, List.foldl_append]
  have h : oldestStep tz (List.foldl (oldestStep tz) none l1) n =
      List.foldl (oldestStep tz) none l1 := by
    unfold oldestStep
    rw [hn]
  rw [h]

/-- Cursor post-processing of `filterByRangeAndFindNext`: the returned
`nextCursor` as a function of the oldest resolved instant and the start
instant. -/
def cursorFromOldest (s : Option Int) (o : Option (Int × Bool)) : Option (Int × Bool) :=
  match o with
  | none => none
  | some (od, u) =>
    match s with
    | some sd => if ¬sd < od - 1 then none else some (od, u)
    | none => some (od, u)

theorem filterByRange_snd (tz : Int) (items : List NoteItem) (s e : Option Int)
    (h : items ≠ []) :
    (filterByRangeAndFindNext tz items s e).2 =
      cursorFromOldest s (oldestResolved tz items) := by
  unfold filterByRangeAndFindNext cursorFromOldest
  rw [if_neg h]
  dsimp only
  split
  · rfl
  · split
    · split <;> rfl
    · rfl

/-- C10: a note with no resolvable timestamp on any candidate field (its media
children included) is always kept by the page range filter, for every start
and end bound, and it contributes nothing to the page's oldest-instant cursor
computation. -/
theorem rangeFilter_keeps_unresolvable (tz : Int) (l1 l2 : List NoteItem) (n : NoteItem)
    (s e : Option Int) (hn : extractTimestamp tz n = none) :
    n ∈ (filterByRangeAndFindNext tz (l1 ++ n :: l2) s e).1 ∧
    (filterByRangeAndFindNext tz (l1 ++ n :: l2) s e).2 =
      (filterByRangeAndFindNext tz (l1 ++ l2) s e).2 := by
  constructor
  · rw [filterByRange_fst tz (l1 ++ n :: l2) s e (by simp)]
    exact List.mem_filter.mpr ⟨by simp, by simp [keepInRange, hn]⟩
  · by_cases h2 : l1 ++ l2 = []
    · rw [filterByRange_snd tz (l1 ++ n :: l2) s e (by simp),
        oldestResolved_skip tz hn l1 l2, h2]
      simp [filterByRangeAndFindNext, oldestResolved, cursorFromOldest]
    · rw [filterByRange_snd tz (l1 ++ n :: l2) s e (by simp),
        filterByRange_snd tz (l1 ++ l2) s e h2, oldestResolved_skip tz hn l1 l2]

theorem rangeFilter_keeps_unresolvable_witness :
    extractTimestamp 0 { id := some "x" } = none ∧
    { id := some "x" } ∈
      (filterByRangeAndFindNext 0 [{ id := some "x" }] (some 0) (some 86400000)).1 :=
  ⟨by decide,
    (rangeFilter_keeps_unresolvable 0 [] [] { id := some "x" } (some 0) (some 86400000)
      (by decide)).1⟩

/-- Page of the C4 counterexample: one note whose only timestamp field is an
absolute-basis instant. -/
def cursorNote : NoteItem := { create_at_utc := some "1970-01-02 00:00:00.500" }

/-- C4 (counterexample): for this page the next cursor sent upstream is the
page's oldest resolved instant itself, formatted as-is, and it differs from
that instant minus one millisecond formatted the same way — so the claim that
the next cursor equals the oldest instant minus one millisecond is false. -/
theorem nextCursor_not_oldest_minus_one :
    (filterByRangeAndFindNext 0 [cursorNote] none none).2 = some (86400500, true) ∧
    computeNextBefore 0 none "1970-01-03 00:00:00.000" (86400500, true) =
      some "1970-01-02 00:00:00.500" ∧
    formatForApi 0 none (86400500 - 1) true = "1970-01-02 00:00:00.499" ∧
    ("1970-01-02 00:00:00.500" : String) ≠ "1970-01-02 00:00:00.499" := by decide

/-- C4 (amended): after a non-final page the cursor returned by
`filterByRangeAndFindNext` is the page's oldest resolved instant itself (in
that record's basis convention), and whenever its formatted value differs from
the previous cursor it is sent unchanged — the minus-one-millisecond value is
used only as the fallback when the formatted cursor fails to advance. -/
theorem nextCursor_is_oldest_formatted (tz : Int) (ltz : Option Int) (prev : String)
    (items : List NoteItem) (s e : Option Int) (d : Int) (u : Bool)
    (h : (filterByRangeAndFindNext tz items s e).2 = some (d, u)) :
    oldestResolved tz items = some (d, u) ∧
    (formatForApi tz ltz d u ≠ prev →
      computeNextBefore tz ltz prev (d, u) = some (formatForApi tz ltz d u)) := by
  refine ⟨filterByRange_cursor_eq_oldest tz items s e d u h, fun hne => ?_⟩
  unfold computeNextBefore
  rw [if_neg hne]

theorem nextCursor_is_oldest_formatted_witness :
    (filterByRangeAndFindNext 0 [cursorNote] none none).2 = some (86400500, true) ∧
    formatForApi 0 none 86400500 true ≠ "1970-01-03 00:00:00.000" ∧
    oldestResolved 0 [cursorNote] = some (86400500, true) ∧
    computeNextBefore 0 none "1970-01-03 00:00:00.000" (86400500, true) =
      some (formatForApi 0 none 86400500 true) :=
  ⟨by decide, by decide,
    (nextCursor_is_oldest_formatted 0 none "1970-01-03 00:00:00.000" [cursorNote]
      none none 86400500 true (by decide)).1,
    (nextCursor_is_oldest_formatted 0 none "1970-01-03 00:00:00.000" [cursorNote]
      none none 86400500 true (by decide)).2 (by decide)⟩

/-- C5 (counterexample): a `NoteItem` carrying both the civil-local field
`create_at` and the absolute-basis field `create_at_utc` resolves to the
civil-local field's instant (100), not the absolute field's instant (200) —
the candidate table tries the civil-local spellings first. -/
theorem extract_prefers_civil_cex :
    (extractTimestamp 0
        { create_at := some "1970-01-01 00:00:00.100",
          create_at_utc := some "1970-01-01 00:00:00.200" }).map ParsedTimestamp.date =
      some 100 ∧
    (parseTimestamp 0 "1970-01-01 00:00:00.200" true).map ParsedTimestamp.date = some 200 ∧
    ((100 : Int) ≠ 200) := by decide

/-- C5 (amended): timestamp extraction over a `NoteItem` tries the civil-local
candidate fields before the absolute-basis ones — a parseable `create_at`
always wins, being the first candidate — and extraction recurses into the
item's media children exactly when no direct candidate field yields a usable
timestamp. -/
theorem extract_order_and_media_recursion :
    (∀ (tz : Int) (item : NoteItem) (s : String) (p : ParsedTimestamp),
      item.create_at = some s → parseTimestamp tz s false = some p →
      extractTimestamp tz item = some p) ∧
    (∀ (tz : Int) (item : NoteItem),
      scanCandidates tz item noteDirectCandidates = none →
      extractTimestamp tz item =
        (match item.media with
         | some ms => firstMediaTimestamp tz ms
         | none => none)) := by
  constructor
  · intro tz item s p h1 h2
    unfold extractTimestamp noteDirectCandidates scanCandidates
    rw [h1]
    dsimp only
    rw [h2]
  · intro tz item h
    unfold extractTimestamp
    rw [h]

theorem extract_order_and_media_recursion_witness :
    ({ create_at := some "1970-01-01 00:00:00.100",
       createAtUtc := some "1970-01-01 00:00:00.200" } : NoteItem).create_at =
      some "1970-01-01 00:00:00.100" ∧
    parseTimestamp 0 "1970-01-01 00:00:00.100" false =
      some ⟨100, "1970-01-01 00:00:00.100", false⟩ ∧
    extractTimestamp 0
        { create_at := some "1970-01-01 00:00:00.100",
          createAtUtc := some "1970-01-01 00:00:00.200" } =
      some ⟨100, "1970-01-01 00:00:00.100", false⟩ :=
  ⟨by decide, by decide,
    extract_order_and_media_recursion.1 0
      { create_at := some "1970-01-01 00:00:00.100",
        createAtUtc := some "1970-01-01 00:00:00.200" }
      "1970-01-01 00:00:00.100" ⟨100, "1970-01-01 00:00:00.100", false⟩
      (by decide) (by decide)⟩

/-- C6: the claim is right and the code is wrong.  `parseTimestamp` with the
UTC hint checks `/[zZ]|[+-]\d{2}/` to decide whether a zone marker is already
present; the hyphen-digit pairs of `YYYY-MM-DD` match that test, so for
`2025-09-17 10:00:00.000` no `Z` is appended and the string is parsed as
process-local time.  In a UTC-7 process (`tz = -420`) the resulting instant
differs by seven hours from the instant obtained with an explicit `Z`
appended, and coincides with it only when the process zone is UTC — the
parse is not independent of the process-local timezone. -/
theorem parseTimestamp_utc_hint_not_utc :
    hasZoneMarkerChars (replaceFirstSpaceT (trimChars "2025-09-17 10:00:00.000".data)) =
      true ∧
    (parseTimestamp (-420) "2025-09-17 10:00:00.000" true).map ParsedTimestamp.date =
      some 1758128400000 ∧
    (parseTimestamp (-420) "2025-09-17 10:00:00.000Z" true).map ParsedTimestamp.date =
      some 1758103200000 ∧
    ((1758128400000 : Int) ≠ 1758103200000) ∧
    (parseTimestamp 0 "2025-09-17 10:00:00.000" true).map ParsedTimestamp.date =
      some 1758103200000 := by decide

/-- Media entry of the C7 counterexample: only its own civil-local field. -/
def ownLocalMedia : MediaAsset := { createAt := some "1970-01-01 00:00:00.100" }

/-- Parent of the C7 counterexample: a resolvable note timestamp and an
absolute-basis field. -/
def utcParent : NoteItem :=
  { create_at := some "1970-01-01 00:00:00.300",
    createAtUtc := some "1970-01-01 00:00:00.200" }

/-- C7 (counterexample): an asset carrying only its own civil-local timestamp
field does not resolve to its own value when the parent carries an
absolute-basis field — `resolveMediaTimestamp` checks every UTC key spelling
on both the media entry and the parent before any civil-local key, so the
parent's `createAtUtc` (instant 200) wins over the asset's own `createAt`
(instant 100). -/
theorem asset_priority_cex :
    resolveAssetTimestamp 0 ownLocalMedia utcParent
        ((extractTimestamp 0 utcParent).map ParsedTimestamp.date) = some 200 ∧
    (parseTimestamp 0 "1970-01-01 00:00:00.100" false).map ParsedTimestamp.date =
      some 100 ∧
    ((200 : Int) ≠ 100) := by decide

/-- C7 (amended): the limiter resolves an asset's instant by scanning the
basis-classified key table — absolute spellings before civil-local ones, and
at each key the asset's own value before the parent's — then the asset's
generic timestamp fields, then the parent's resolved instant.  In particular
an asset whose own `createAtUtc` parses resolves to it, and an asset whose
scanned value is unparsable and whose own fields yield nothing falls through
to the parent's resolved instant rather than failing. -/
theorem asset_priority_amended :
    (∀ (tz : Int) (m : MediaAsset) (parent : NoteItem) (fb : Option Int) (s : String)
        (p : ParsedTimestamp),
      m.createAtUtc = some s → trimChars s.data = s.data → s ≠ "" →
      parseTimestamp tz s true = some p →
      resolveAssetTimestamp tz m parent fb = some p.date) ∧
    (∀ (tz : Int) (m : MediaAsset) (parent : NoteItem) (fb : Option Int)
        (info : MediaTimestampInfo),
      resolveMediaTimestamp m parent = some info →
      parseTimestamp tz info.value info.hintUtc = none →
      extractTimestampMedia tz m = none →
      resolveAssetTimestamp tz m parent fb = fb) := by
  constructor
  · intro tz m parent fb s p h1 h2 h3 h4
    have hds : s.data ≠ [] := by
      intro hd
      apply h3
      cases s
      simp at hd
      rw [hd]
    have hpick : pickFirstDefined [m.createAtUtc, parent.createAtUtc] = some s := by
      rw [h1]
      unfold pickFirstDefined
      rw [if_neg h3]
    have hscan : scanKeyPairs m parent mediaUtcKeyPairs = some s := by
      unfold mediaUtcKeyPairs scanKeyPairs
      rw [hpick]
      dsimp only
      rw [h2, if_neg hds]
    have hres : resolveMediaTimestamp m parent = some ⟨s, true⟩ := by
      unfold resolveMediaTimestamp
      rw [hscan]
    unfold resolveAssetTimestamp
    rw [hres]
    dsimp only
    rw [h4]
    rfl
  · intro tz m parent fb info h1 h2 h3
    unfold resolveAssetTimestamp
    rw [h1]
    try dsimp only
    rw [h2]
    try dsimp only
    rw [h3]
    rfl

/-- Asset of the malformed-timestamp scenario. -/
def notADateMedia : MediaAsset := { createAt := some "not-a-date" }

/-- Parent of the malformed-timestamp scenario. -/
def validParent : NoteItem := { create_at := some "1970-01-01 00:00:00.100" }

theorem asset_priority_amended_witness :
    resolveMediaTimestamp notADateMedia validParent = some ⟨"not-a-date", false⟩ ∧
    parseTimestamp 0 "not-a-date" false = none ∧
    extractTimestampMedia 0 notADateMedia = none ∧
    resolveAssetTimestamp 0 notADateMedia validParent (some 100) = some 100 :=
  ⟨by decide, by decide, by decide,
    asset_priority_amended.2 0 notADateMedia validParent (some 100) ⟨"not-a-date", false⟩
      (by decide) (by decide) (by decide)⟩

theorem dedupGo_mem :
    ∀ (l : List NoteItem) (seen : List StableId) (it : NoteItem),
      it ∈ dedupByStableId.go seen l → it ∈ l := by
  intro l
  induction l with
  | nil => intro seen it h; simp [dedupByStableId.go] at h
  | cons x rest ih =>
    intro seen it h
    unfold dedupByStableId.go at h
    by_cases hc : seen.contains (deriveStableId x)
    · rw [if_pos hc] at h
      exact List.mem_cons_of_mem _ (ih seen it h)
    · rw [if_neg hc] at h
      rcases List.mem_cons.mp h with h' | h'
      · exact h' ▸ List.mem_cons_self _ _
      · exact List.mem_cons_of_mem _ (ih _ it h')

theorem dedup_mem {l : List NoteItem} {it : NoteItem} (h : it ∈ dedupByStableId l) :
    it ∈ l :=
  dedupGo_mem l [] it h

theorem keepInRange_start_le {tz : Int} {s : Int} {ee : Option Int} {it : NoteItem}
    (h : keepInRange tz (some s) ee it = true) {p : ParsedTimestamp}
    (hp : extractTimestamp tz it = some p) : s ≤ p.date := by
  unfold keepInRange at h
  rw [hp] at h
  dsimp only at h
  simp only [Bool.and_eq_true, decide_eq_true_eq] at h
  exact h.1

theorem filterKept_start_le {tz : Int} {items : List NoteItem} {s : Int} {e : Option Int}
    {it : NoteItem} (h : it ∈ (filterByRangeAndFindNext tz items (some s) e).1)
    {p : ParsedTimestamp} (hp : extractTimestamp tz it = some p) : s ≤ p.date := by
  by_cases hne : items = []
  · subst hne
    simp [filterByRangeAndFindNext] at h
  · rw [filterByRange_fst tz items (some s) e hne] at h
    exact keepInRange_start_le (List.mem_filter.mp h).2 hp

theorem latestFold_attain (tz : Int) :
    ∀ (l : List NoteItem) (acc : Option Int) (v : Int),
      l.foldl (latestStep tz) acc = some v →
      acc = some v ∨ ∃ it ∈ l, ∃ p, extractTimestamp tz it = some p ∧ p.date = v := by
  intro l
  induction l with
  | nil => intro acc v h; exact Or.inl h
  | cons x rest ih =>
    intro acc v h
    rw [List.foldl_cons] at h
    rcases ih (latestStep tz acc x) v h with h' | h'
    · cases hx : extractTimestamp tz x with
      | none =>
        unfold latestStep at h'
        rw [hx] at h'
        exact Or.inl h'
      | some p =>
        unfold latestStep at h'
        rw [hx] at h'
        cases hacc : acc with
        | none =>
          rw [hacc] at h'
          dsimp only at h'
          exact Or.inr ⟨x, List.mem_cons_self _ _, p, hx, by injection h'⟩
        | some a =>
          rw [hacc] at h'
          dsimp only at h'
          by_cases hlt : a < p.date
          · rw [if_pos hlt] at h'
            exact Or.inr ⟨x, List.mem_cons_self _ _, p, hx, by injection h'⟩
          · rw [if_neg hlt] at h'
            exact Or.inl h'
    · obtain ⟨it, hit, p, hp, hpd⟩ := h'
      exact Or.inr ⟨it, List.mem_cons_of_mem _ hit, p, hp, hpd⟩

theorem findLatest_attain {tz : Int} {l : List NoteItem} {v : Int}
    (h : findLatestTimestamp tz l = some v) :
    ∃ it ∈ l, ∃ p, extractTimestamp tz it = some p ∧ p.date = v := by
  rcases latestFold_attain tz l none v h with h' | h'
  · exact absurd h' (by simp)
  · exact h'

/-- Static dataset of the C2 counterexample, all instants in process zone
UTC: a note at instant 100 whose single asset carries its own absolute-basis
instant 5, a note at instant 30 whose asset falls back to it, and an
unresolvable note with three timestampless assets. -/
def regressQ : NoteItem :=
  { id := some "q", create_at := some "1970-01-01 00:00:00.100",
    media := some [{ createAtUtc := some "1970-01-01 00:00:00.005" }] }

def regressP2 : NoteItem :=
  { id := some "p2", create_at := some "1970-01-01 00:00:00.030", media := some [{}] }

def regressP3 : NoteItem :=
  { id := some "p3", media := some [{}, {}, {}] }

def regressDataset : List NoteItem := [regressQ, regressP2, regressP3]

/-- C2 (counterexample): over this static dataset with an asset cap of 3, a
first sync run from an empty state writes watermark 30; the sequential second
run, resuming from 30, writes watermark 5 — the persisted watermark
regresses, because the limiter's `latestTimestamp` is the latest *retained
asset* instant, which can precede the stored watermark when an already-synced
old asset re-enters through a newer note. -/
theorem watermark_regression_cex :
    runEnrollmentSync 0 regressDataset none (some 3) = some 30 ∧
    runEnrollmentSync 0 regressDataset (some 30) (some 3) = some 5 ∧
    ¬(30 : Int) ≤ 5 := by decide

/-- C2 (amended): for an enrollment synced without an asset cap the persisted
watermark never regresses — any watermark written by a run that resumed from
stored watermark `w` is strictly greater than `w`, so the next resume instant
(stored plus one millisecond) also exceeds it.  With a soft asset cap
configured the written watermark can regress, as the counterexample shows. -/
theorem watermark_monotone_without_cap (tz : Int) (ds : List NoteItem) (w w' : Int)
    (h : runEnrollmentSync tz ds (some w) none = some w') : w < w' := by
  unfold runEnrollmentSync processFetchedItems at h
  simp only [selectEffectiveStartDate, Option.map] at h
  set fetched :=
    dedupByStableId (filterByRangeAndFindNext tz ds (some (w + 1)) none).1 with hf
  try dsimp only at h
  by_cases hemp : fetched = []
  · rw [if_pos hemp] at h
    exact absurd h (by simp)
  · rw [if_neg hemp] at h
    cases hfl : findLatestTimestamp tz fetched with
    | none =>
      rw [hfl] at h
      simp at h
    | some v =>
      rw [hfl] at h
      dsimp only at h
      have hv : v = w' := by injection h
      obtain ⟨it, hit, p, hp, hpd⟩ := findLatest_attain hfl
      have hmem : it ∈ (filterByRangeAndFindNext tz ds (some (w + 1)) none).1 :=
        dedup_mem hit
      have hbound : w + 1 ≤ p.date := filterKept_start_le hmem hp
      omega

/-- Single note of the C2 witness. -/
def monoNote : NoteItem := { create_at := some "1970-01-01 00:00:00.050" }

theorem watermark_monotone_without_cap_witness :
    runEnrollmentSync 0 [monoNote] (some 10) none = some 50 ∧ (10 : Int) < 50 :=
  ⟨by decide, watermark_monotone_without_cap 0 [monoNote] 10 50 (by decide)⟩

/-- C3 (amended): a fatal feed error for any reachable enrollment aborts the
whole run — the exception propagates out of the per-enrollment loop, so the
state file is never saved (`persisted = none`), even for enrollments whose
watermarks had already advanced in memory, and the run counts as crashed.
Only enrollments with a missing identity are skipped with the run
continuing. -/
theorem fatal_feed_error_aborts_run (tz : Int) (feed : String → Nat → HttpResp)
    (ma : Option Nat) (es : List Enrollment) (st : List (String × Int)) (upd : Bool)
    (procd : List String)
    (h : ∃ e ∈ es, ∃ i, extractEnrollmentId e = some i ∧
      ∃ msg, robustGetJSON (feed i) = .error msg) :
    (syncLoop tz feed ma es st upd procd).persisted = none ∧
    (syncLoop tz feed ma es st upd procd).crashed = true := by
  induction es generalizing st upd procd with
  | nil =>
    obtain ⟨e, he, -⟩ := h
    exact absurd he (List.not_mem_nil e)
  | cons e' rest ih =>
    obtain ⟨e, he, i, hei, msg, herr⟩ := h
    unfold syncLoop
    cases hid : extractEnrollmentId e' with
    | none =>
      have hne : e ≠ e' := by
        intro heq
        rw [heq, hid] at hei
        exact absurd hei (by simp)
      have hrest : e ∈ rest := by
        rcases List.mem_cons.mp he with h' | h'
        · exact absurd h' hne
        · exact h'
      exact ih st upd procd ⟨e, hrest, i, hei, msg, herr⟩
    | some eid =>
      dsimp only
      cases hrg : robustGetJSON (feed eid) with
      | error msg' => exact ⟨rfl, rfl⟩
      | ok page =>
        have hne : e ≠ e' := by
          intro heq
          rw [heq, hid] at hei
          have hie : eid = i := by injection hei
          rw [← hie, hrg] at herr
          exact absurd herr (by simp)
        have hrest : e ∈ rest := by
          rcases List.mem_cons.mp he with h' | h'
          · exact absurd h' hne
          · exact h'
        dsimp only
        cases runEnrollmentSync tz page (stateLookup st eid) ma with
        | none => exact ih st upd (procd ++ [eid]) ⟨e, hrest, i, hei, msg, herr⟩
        | some wv =>
          exact ih (stateInsert st eid wv) true (procd ++ [eid]) ⟨e, hrest, i, hei, msg, herr⟩

/-- Enrollments of the C3 counterexample. -/
def cexEnrollments : List Enrollment :=
  [{ enrollment_id := some "a" }, { enrollment_id := some "b" },
   { enrollment_id := some "c" }]

/-- Note delivered for enrollment `a`. -/
def noteForA : NoteItem := { id := some "n1", create_at := some "1970-01-01 00:00:00.050" }

/-- Note delivered for enrollment `c`. -/
def noteForC : NoteItem := { id := some "n2", create_at := some "1970-01-01 00:00:00.060" }

/-- Feed of the C3 counterexample: enrollment `a` succeeds, `b` answers 404 on
every attempt (a non-retriable non-success status), `c` would succeed. -/
def cexFeed : String → Nat → HttpResp := fun eid _ =>
  if eid = "a" then ⟨200, [noteForA]⟩
  else if eid = "b" then ⟨404, []⟩
  else ⟨200, [noteForC]⟩

/-- C3 (counterexample): enrollment `a` completes and advances its watermark
in memory (to instant 50), then enrollment `b`'s fetch fails fatally with 404.
Contrary to the claim, enrollment `c` is never processed and no watermark is
persisted — the run crashes with the state file untouched. -/
theorem fatal_feed_error_not_isolated_cex :
    syncAction 0 cexFeed none cexEnrollments [] =
      ⟨none, ["a"], true⟩ ∧
    runEnrollmentSync 0 [noteForA] none none = some 50 ∧
    "c" ∉ (syncAction 0 cexFeed none cexEnrollments []).processed := by decide

theorem fatal_feed_error_aborts_run_witness :
    robustGetJSON (cexFeed "b") = .error 404 ∧
    (syncAction 0 cexFeed none cexEnrollments []).persisted = none ∧
    (syncAction 0 cexFeed none cexEnrollments []).crashed = true :=
  ⟨rfl,
    (fatal_feed_error_aborts_run 0 cexFeed none cexEnrollments [] false []
      ⟨{ enrollment_id := some "b" }, by decide, "b", by decide, 404, rfl⟩).1,
    (fatal_feed_error_aborts_run 0 cexFeed none cexEnrollments [] false []
      ⟨{ enrollment_id := some "b" }, by decide, "b", by decide, 404, rfl⟩).2⟩
